import Mathlib

/-!
Verification of the ledger ingestion/aggregation pipeline in `app.py`.

Shallow embedding conventions:
* A dataframe cell is `Cell := Option String`; `none` models a pandas
  missing value (`NaN`).  The source frames that reach `clean_numeric`
  keep the amount column as text (object dtype), so cells are modelled
  as strings; the pass-through branch of `clean_numeric` for values that
  are already numeric is the identity cast and is not reachable in this
  model.
* Python `float` values produced by the pipeline are modelled as exact
  rationals `ℚ`; float `NaN` results are modelled as `Option ℚ := none`.
  The normalizer's contract is additionally settled over the full
  `float()` value domain `PyFloat` (finite, infinities, `NaN`), since the
  case-insensitive `nan`/`inf` word forms parse successfully in Python;
  the loader's conditional theorems use the finite restriction.
* `DataFrame.apply(..., axis=1)` on a zero-row frame returns an empty
  DataFrame, whose `.tolist()` raises `AttributeError`; `get_data_result`
  models this request-fatal path of the top-10 projection.
* Exceptions are modelled with `Except`: a pandas `KeyError` on a missing
  column (the spec's `SchemaError`) carries the missing field name, and a
  `ValueError` from `float(...)` (the spec's `NormalizationError`) is
  `valueError`.
* `pd.read_csv(..., sep=';', skiprows=6)` is external I/O; the embedding
  starts from its output: the header row (`List (Option String)`, `none`
  for a blank/missing header cell) and the data rows (lists of cells,
  aligned with the header; short rows are padded with `NaN` by pandas,
  which `cellAt` models by returning `none` past the end).
-/

deriving instance DecidableEq for Except

abbrev Cell := Option String

abbrev Row := List Cell

/-- Calendar date (no time component), as produced by
`pd.to_datetime(..., format (percent-d slash percent-m slash percent-Y))`. -/
structure Date where
  year : Nat
  month : Nat
  day : Nat
deriving DecidableEq

/-- One loaded transaction row, keeping the fields the analysis routes read. -/
structure Record where
  data_entrada : Date
  cliente : Cell
  fornecedor : Cell
  obra : Cell
  tipo_custo : Cell
  total : ℚ
deriving DecidableEq

inductive NormError where
  | valueError
deriving DecidableEq

/-! ### Numeric normalizer (`clean_numeric`) -/

/-- Digit run to a natural number (the usual base-10 fold). -/
def digitsNat (cs : List Char) : Nat :=
  cs.foldl (fun n c => n * 10 + (c.toNat - 48)) 0

/-- Python `str.strip()`: whitespace removed from both ends. -/
def pyStrip (cs : List Char) : List Char :=
  ((cs.dropWhile Char.isWhitespace).reverse.dropWhile Char.isWhitespace).reverse

/-- The cleaning chain `value.replace('.', '').replace(',', '.').strip()`
at character level: every period removed, each comma turned into a
period, then stripped. -/
def cleanedChars (cs : List Char) : List Char :=
  pyStrip ((cs.filter (fun c => c ≠ '.')).map (fun c => if c = ',' then '.' else c))

/-- Magnitude parse on the integer-part digits `ip` and the remainder
`rest` of the token. -/
def parseMagAux (ip rest : List Char) : Option ℚ :=
  match rest with
  | [] =>
      if ip.isEmpty then none
      else some ((digitsNat ip : ℚ))
  | c :: fr =>
      if c = '.' then
        if ip.isEmpty && fr.isEmpty then none
        else if fr.all Char.isDigit then
          some ((digitsNat ip : ℚ) + (digitsNat fr : ℚ) / (10 ^ fr.length))
        else none
      else none

/-- Magnitude part of Python `float(...)` on the decimal fragment
`digits [ '.' digits ]` (also `.5` and `5.`).  Exponent forms and
digit-group underscores are outside the model; the `nan`/`inf` word
forms are modelled by `parseFloatPy` below. -/
def parseMag (cs : List Char) : Option ℚ :=
  parseMagAux (cs.takeWhile Char.isDigit) (cs.dropWhile Char.isDigit)

/-- Python `float(string)` restricted to the decimal fragment: optional
sign, then a magnitude.  This is the finite restriction of
`parseFloatPy` below. -/
def parseFloat (cs : List Char) : Option ℚ :=
  match cs with
  | [] => none
  | c :: t =>
      if c = '-' then (parseMag t).map (fun q => -q)
      else if c = '+' then parseMag t
      else parseMag (c :: t)

/-- `clean_numeric` restricted to the finite fragment of `float()`:
`NaN`, `'-'` and `''` normalize to `0`; any other string is cleaned and
parsed as a decimal; an unparseable remainder is the `ValueError` that
`float` raises.  The loader's conditional theorems are stated over this
restriction; the faithful full-domain normalizer is `clean_numeric_py`
below (see `clean_numeric_finite`). -/
def clean_numeric (v : Cell) : Except NormError ℚ :=
  match v with
  | none => .ok 0
  | some s =>
      if s = "-" then .ok 0
      else if s = "" then .ok 0
      else
        match parseFloat (cleanedChars s.data) with
        | some q => .ok q
        | none => .error .valueError

/-! ### The full `float()` value domain

Python `float()` also accepts the case-insensitive word forms `nan`,
`inf` and `infinity` with an optional sign, producing non-finite floats.
These reach `clean_numeric` unconverted (e.g. the cell `Nan`, which is
not in the `read_csv` default `na_values`), so the faithful model of the
normalizer works over the full value domain. -/

inductive PyFloat where
  | finite (q : ℚ)
  | pinf
  | ninf
  | nan
deriving DecidableEq

/-- Sign flip of `float()`'s leading minus; the sign of a NaN is
irrelevant to every comparison the program makes. -/
def pyNegate : PyFloat → PyFloat
  | .finite q => .finite (-q)
  | .pinf => .ninf
  | .ninf => .pinf
  | .nan => .nan

/-- Python `v < 0` on a float value: NaN compares false, as does
positive infinity. -/
def pyLtZero : PyFloat → Bool
  | .finite q => decide (q < 0)
  | .pinf => false
  | .ninf => true
  | .nan => false

/-- The case-insensitive `nan` / `inf` / `infinity` word forms of the
`float()` grammar, sign excluded. -/
def parseWordMag (cs : List Char) : Option PyFloat :=
  if cs.map Char.toLower = ['n', 'a', 'n'] then some .nan
  else if cs.map Char.toLower = ['i', 'n', 'f'] then some .pinf
  else if cs.map Char.toLower = ['i', 'n', 'f', 'i', 'n', 'i', 't', 'y'] then
    some .pinf
  else none

/-- Optional sign before a word form. -/
def parseWordPy (cs : List Char) : Option PyFloat :=
  match cs with
  | [] => none
  | c :: t =>
      if c = '-' then (parseWordMag t).map pyNegate
      else if c = '+' then parseWordMag t
      else parseWordMag (c :: t)

/-- Python `float(string)` over its full value domain: either the
decimal fragment or a sign-qualified word form.  The two alternatives of
the grammar are disjoint (a word is never a digit/point string), so
trying them in either order is faithful. -/
def parseFloatPy (cs : List Char) : Option PyFloat :=
  match parseFloat cs with
  | some q => some (.finite q)
  | none => parseWordPy cs

/-- `clean_numeric` over the full `float()` domain: identical placeholder
handling, with the word forms parsing to non-finite floats instead of
raising. -/
def clean_numeric_py (v : Cell) : Except NormError PyFloat :=
  match v with
  | none => .ok (.finite 0)
  | some s =>
      if s = "-" then .ok (.finite 0)
      else if s = "" then .ok (.finite 0)
      else
        match parseFloatPy (cleanedChars s.data) with
        | some f => .ok f
        | none => .error .valueError

/-! ### Date parsing (`pd.to_datetime(..., errors='coerce')`) -/

/-- Character-level split on `'/'`, matching `str.split('/')`. -/
def splitSlash : List Char → List (List Char)
  | [] => [[]]
  | '/' :: t => [] :: splitSlash t
  | c :: t =>
      match splitSlash t with
      | [] => [[c]]
      | p :: ps => (c :: p) :: ps

def isDigits (cs : List Char) : Bool :=
  !cs.isEmpty && cs.all Char.isDigit

def isLeap (y : Nat) : Bool :=
  (y % 4 == 0 && y % 100 != 0) || (y % 400 == 0)

def daysInMonth (y m : Nat) : Nat :=
  if m == 2 then (if isLeap y then 29 else 28)
  else if m == 4 || m == 6 || m == 9 || m == 11 then 30 else 31

/-- Numeric key `yyyymmdd` of a date; orders dates chronologically. -/
def dateKey (d : Date) : Nat :=
  d.year * 10000 + d.month * 100 + d.day

/-- Strict day/month/year parse: 1-2 digit day and month, 4 digit year,
whole string consumed, real calendar date inside the pandas
`datetime64[ns]` range (midnight timestamps 1677-09-22 .. 2262-04-11).
Failure (`none`) models the `NaT` of `errors='coerce'`. -/
def parseDate (c : Cell) : Option Date :=
  match c with
  | none => none
  | some s =>
      match splitSlash s.data with
      | [ds, ms, ys] =>
          if isDigits ds && ds.length ≤ 2 && isDigits ms && ms.length ≤ 2 &&
              isDigits ys && ys.length == 4 then
            let d := digitsNat ds
            let m := digitsNat ms
            let y := digitsNat ys
            if 1 ≤ d && 1 ≤ m && m ≤ 12 && d ≤ daysInMonth y m &&
                16770922 ≤ dateKey ⟨y, m, d⟩ && dateKey ⟨y, m, d⟩ ≤ 22620411 then
              some ⟨y, m, d⟩
            else none
          else none
      | _ => none

/-! ### Column remapping in `load_data` -/

/-- `df.columns` after `df.loc[:, df.columns.notna()]`: the non-blank
header names in order. -/
def colunas (hdr : List (Option String)) : List String :=
  hdr.filterMap id

/-- `colunas[21] if len(colunas) > 21 else 'Total'`. -/
def coluna_total (cols : List String) : String :=
  if cols.length > 21 then cols.getD 21 "" else "Total"

/-- The `column_mapping` dict as a lookup function; the late assignment
`column_mapping[coluna_total] = 'total'` wins over any fixed entry for
the same key. -/
def column_mapping (ct k : String) : Option String :=
  if k == ct then some "total"
  else if k == "Dt. entrada" then some "data_entrada"
  else if k == "Cliente" then some "cliente"
  else if k == "Obra/Centro de custo" then some "obra"
  else if k == "Doc. financ." then some "documento"
  else if k == "Fornecedor" then some "fornecedor"
  else if k == "Tipo Custo" then some "tipo_custo"
  else if k == "Qtd." then some "quantidade"
  else if k == "Und." then some "unidade"
  else if k == "Insumo" then some "insumo"
  else if k == "Fase" then some "fase"
  else none

def fixedKeys : List String :=
  ["Dt. entrada", "Cliente", "Obra/Centro de custo", "Doc. financ.",
   "Fornecedor", "Tipo Custo", "Qtd.", "Und.", "Insumo", "Fase"]

/-- Keys of the `column_mapping` dict in insertion order: the fixed keys,
with `coluna_total` appended when it is not already one of them. -/
def mappingKeys (ct : String) : List String :=
  if fixedKeys.contains ct then fixedKeys else fixedKeys ++ [ct]

/-- Cell of the first column whose header is `k`, looked up in the
original row layout; `none` for a missing column or a short row. -/
def cellAt (hdr : List (Option String)) (row : Row) (k : String) : Cell :=
  match hdr.findIdx? (fun c => c == some k) with
  | some i => (row.get? i).join
  | none => none

/-- Source column feeding canonical field `f` after selection and rename:
the mapping key whose value is `f`, provided that key is among the
frame's columns. -/
def fieldSrcH (hdr : List (Option String)) (f : String) : Option String :=
  match (mappingKeys (coluna_total (colunas hdr))).find?
      (fun k => column_mapping (coluna_total (colunas hdr)) k == some f) with
  | some k => if (colunas hdr).contains k then some k else none
  | none => none

/-- Value of canonical field `f` for one row (missing column gives `NaN`). -/
def fieldCell (hdr : List (Option String)) (row : Row) (f : String) : Cell :=
  match fieldSrcH hdr f with
  | some k => cellAt hdr row k
  | none => none

/-! ### `load_data` row pipeline -/

inductive LoadErr where
  | keyError (field : String)
  | valueError
deriving DecidableEq

/-- `df['total'] = df['total'].apply(clean_numeric)`: every row's amount
cell is normalized; the first failing cell raises row-agnostic
`ValueError` and aborts the whole load. -/
def cleanTotals (hdr : List (Option String)) (tcol : String) :
    List Row → Except LoadErr (List (Row × ℚ))
  | [] => .ok []
  | r :: rs =>
      match clean_numeric (cellAt hdr r tcol) with
      | .error _ => .error .valueError
      | .ok t =>
          match cleanTotals hdr tcol rs with
          | .error e => .error e
          | .ok rest => .ok ((r, t) :: rest)

/-- Record built from a surviving row. -/
def mkRecord (hdr : List (Option String)) (row : Row) (d : Date) (t : ℚ) : Record :=
  { data_entrada := d
    cliente := fieldCell hdr row "cliente"
    fornecedor := fieldCell hdr row "fornecedor"
    obra := fieldCell hdr row "obra"
    tipo_custo := fieldCell hdr row "tipo_custo"
    total := t }

/-- `load_data` after `read_csv`: blank-header columns dropped, columns
remapped, dates parsed with coercion, amounts normalized, rows with
unparseable dates dropped, rows with non-positive amount dropped.
Reading a missing `data_entrada` or `total` column raises `KeyError`
naming the field (line order: the date column is touched first). -/
def load_data (hdr : List (Option String)) (rows : List Row) :
    Except LoadErr (List Record) :=
  match fieldSrcH hdr "data_entrada" with
  | none => .error (.keyError "data_entrada")
  | some dcol =>
      match fieldSrcH hdr "total" with
      | none => .error (.keyError "total")
      | some tcol =>
          match cleanTotals hdr tcol rows with
          | .error e => .error e
          | .ok pairs =>
              .ok (pairs.filterMap fun rt =>
                match parseDate (cellAt hdr rt.1 dcol) with
                | none => none
                | some d => if (0 : ℚ) < rt.2 then some (mkRecord hdr rt.1 d rt.2) else none)

/-! ### Stable sorting (Python `sorted` / `list.sort`)

Python's sort is stable; a stable sort for a total boolean preorder is
uniquely determined, so insertion sort is a faithful model.  `le a b`
reads "a may stay before b". -/

def stableInsert (le : α → α → Bool) (x : α) : List α → List α
  | [] => [x]
  | y :: ys => if le x y then x :: y :: ys else y :: stableInsert le x ys

def stableSort (le : α → α → Bool) : List α → List α
  | [] => []
  | x :: xs => stableInsert le x (stableSort le xs)

/-! ### String comparison (Python compares strings by code points) -/

/-- Lexicographic strict order on code-point sequences. -/
def natListLt : List Nat → List Nat → Bool
  | _, [] => false
  | [], _ :: _ => true
  | a :: as, b :: bs => a < b || (a == b && natListLt as bs)

/-- Code points of a string, the key Python compares strings by. -/
def strKey (s : String) : List Nat :=
  s.data.map Char.toNat

/-- Ascending comparator on strings: `a` may stay before `b` when `b` is
not strictly below `a`. -/
def strLeB (a b : String) : Bool :=
  !(natListLt (strKey b) (strKey a))

/-! ### Grouping (pandas `groupby`, `unique`, `nunique`) -/

/-- Distinct values in first-appearance order (`Series.unique`). -/
def uniqueFirst : List String → List String
  | [] => []
  | a :: as => a :: (uniqueFirst as).filter (fun b => b ≠ a)

/-- Group keys of `df.groupby(key)`: missing (`NaN`) keys dropped,
distinct keys sorted ascending. -/
def groupKeys (key : Record → Cell) (rs : List Record) : List String :=
  stableSort strLeB (uniqueFirst (rs.filterMap key))

/-- `df.groupby(key)['total'].sum()` as an association list in group-key
order. -/
def groupTotals (key : Record → Cell) (rs : List Record) : List (String × ℚ) :=
  (groupKeys key rs).map fun k =>
    (k, ((rs.filter fun r => key r == some k).map Record.total).sum)

def pad2 (n : Nat) : String :=
  if n < 10 then "0" ++ toString n else toString n

/-- `strftime` for the `YYYY-MM` month key. -/
def monthKey (d : Date) : String :=
  toString d.year ++ "-" ++ pad2 d.month

/-- Month keys of `df.groupby(df['data_entrada'].dt.strftime('%Y-%m'))`
(the key series has no missing values). -/
def monthGroupKeys (rs : List Record) : List String :=
  stableSort strLeB (uniqueFirst (rs.map fun r => monthKey r.data_entrada))

def monthTotals (rs : List Record) : List (String × ℚ) :=
  (monthGroupKeys rs).map fun k =>
    (k, ((rs.filter fun r => monthKey r.data_entrada == k).map Record.total).sum)

/-! ### Summary block of `get_data` -/

structure Summary where
  total_registros : Nat
  total_valor : ℚ
  media_valor : Option ℚ
  total_por_tipo : List (String × ℚ)
  evolucao_temporal : List (String × ℚ)
deriving DecidableEq

/-- The `summary` dict: count, sum, mean (`NaN`, modelled `none`, on an
empty frame), per-cost-type sums and per-month sums. -/
def summaryOf (rs : List Record) : Summary :=
  { total_registros := rs.length
    total_valor := (rs.map Record.total).sum
    media_valor :=
      if rs.length = 0 then none
      else some ((rs.map Record.total).sum / (rs.length : ℚ))
    total_por_tipo := groupTotals Record.tipo_custo rs
    evolucao_temporal := monthTotals rs }

/-! ### Recent-transactions table of `get_data` -/

/-- `str(cell)`: a missing value prints as `nan`. -/
def cellStr : Cell → String
  | none => "nan"
  | some s => s

/-- `strftime` for the `dd/mm/YYYY` display date. -/
def dateStr (d : Date) : String :=
  pad2 d.day ++ "/" ++ pad2 d.month ++ "/" ++ toString d.year

structure TableRow where
  data_entrada : String
  cliente : String
  fornecedor : String
  obra : String
  tipo_custo : String
  total : ℚ
deriving DecidableEq

def toTableRow (r : Record) : TableRow :=
  { data_entrada := dateStr r.data_entrada
    cliente := cellStr r.cliente
    fornecedor := cellStr r.fornecedor
    obra := cellStr r.obra
    tipo_custo := cellStr r.tipo_custo
    total := r.total }

/-- Comparator of `sorted(..., key=lambda x: x['data_entrada'],
reverse=True)`: descending in the formatted date STRING. -/
def rowLeB (a b : TableRow) : Bool :=
  !(natListLt (strKey a.data_entrada) (strKey b.data_entrada))

/-- `table_data`: project every filtered record, sort by the formatted
`dd/mm/YYYY` string descending (stable), keep the first 100. -/
def table_data (rs : List Record) : List TableRow :=
  (stableSort rowLeB (rs.map toTableRow)).take 100

/-! ### Per-supplier rollup of `get_data` -/

structure FornecedorStats where
  fornecedor : String
  total_gasto : ℚ
  quantidade_transacoes : Nat
  valor_medio : ℚ
  quantidade_clientes : Nat
  quantidade_obras : Nat
  tipos_custo_diferentes : Nat
  clientes_obras : List (String × List String)
deriving DecidableEq

/-- Iteration keys of `df.groupby('fornecedor')` with the loop's
`if pd.isna(nome) or not nome: continue`: distinct non-missing suppliers
sorted ascending, then blank names skipped. -/
def supplierKeys (rs : List Record) : List String :=
  (stableSort strLeB (uniqueFirst (rs.filterMap Record.fornecedor))).filter
    (fun k => k ≠ "")

/-- Stats of one supplier group. -/
def statsFor (rs : List Record) (k : String) : FornecedorStats :=
  { fornecedor := k
    total_gasto :=
      (((rs.filter fun r => r.fornecedor == some k)).map Record.total).sum
    quantidade_transacoes := (rs.filter fun r => r.fornecedor == some k).length
    valor_medio :=
      (((rs.filter fun r => r.fornecedor == some k)).map Record.total).sum /
        ((rs.filter fun r => r.fornecedor == some k).length : ℚ)
    quantidade_clientes :=
      (uniqueFirst ((rs.filter fun r => r.fornecedor == some k).filterMap
        Record.cliente)).length
    quantidade_obras :=
      (uniqueFirst ((rs.filter fun r => r.fornecedor == some k).filterMap
        Record.obra)).length
    tipos_custo_diferentes :=
      (uniqueFirst ((rs.filter fun r => r.fornecedor == some k).filterMap
        Record.tipo_custo)).length
    clientes_obras :=
      ((uniqueFirst ((rs.filter fun r => r.fornecedor == some k).filterMap
          Record.cliente)).filter (fun c => c ≠ "")).map fun c =>
        (c, (uniqueFirst (((rs.filter fun r => r.fornecedor == some k).filter
              (fun r => r.cliente == some c)).filterMap Record.obra)).filter
            (fun o => o ≠ "")) }

/-- Comparator of `sort(key=lambda x: x['total_gasto'], reverse=True)`. -/
def statLeB (f g : FornecedorStats) : Bool :=
  !(decide (f.total_gasto < g.total_gasto))

/-- `analise_fornecedores`: one stats entry per non-blank supplier in
group order, stably sorted by total descending, truncated to 20. -/
def analise_fornecedores (rs : List Record) : List FornecedorStats :=
  (stableSort statLeB ((supplierKeys rs).map (statsFor rs))).take 20

/-! ### Top-10 projection and the analysis result of `get_data` -/

/-- One entry of `top_10_gastos`. -/
structure TopRow where
  data : String
  fornecedor : String
  cliente : String
  obra : String
  tipo_custo : String
  valor : ℚ
deriving DecidableEq

/-- The exception class aborting `get_data` (caught and surfaced as a
500 response). -/
inductive GetDataErr where
  | attributeError
deriving DecidableEq

def toTopRow (r : Record) : TopRow :=
  { data := dateStr r.data_entrada
    fornecedor := cellStr r.fornecedor
    cliente := cellStr r.cliente
    obra := cellStr r.obra
    tipo_custo := cellStr r.tipo_custo
    valor := r.total }

/-- Comparator of `nlargest(10, 'total')`: amount descending, ties keep
the first occurrence (pandas default `keep='first'`). -/
def topLeB (a b : Record) : Bool :=
  !(decide (a.total < b.total))

/-- `df.nlargest(10, 'total').apply(lambda row: {...}, axis=1).tolist()`:
on a zero-row frame `apply` returns an empty DataFrame (its probe of the
row function on a missing-value row raises and is swallowed), and
`.tolist()` on a DataFrame raises `AttributeError`; on a nonempty frame
`apply(axis=1)` yields a Series whose `.tolist()` is the projected row
list. -/
def top_10_gastos (rs : List Record) : Except GetDataErr (List TopRow) :=
  if rs.isEmpty then .error .attributeError
  else .ok (((stableSort topLeB rs).take 10).map toTopRow)

/-- The analysis half of `get_data` after loading and filtering: the
summary block always computes (an empty mean is `NaN`), but the top-10
projection may raise, aborting the request before anything is reported. -/
def get_data_result (rs : List Record) :
    Except GetDataErr
      (Summary × List TopRow × List FornecedorStats × List TableRow) :=
  match top_10_gastos rs with
  | .error e => .error e
  | .ok t => .ok (summaryOf rs, t, analise_fornecedores rs, table_data rs)

/-! ### Text filters of `get_data` (`Series.str.contains(pat, case=False,
na=False)`) pandas interprets the pattern as a regular expression
(`regex=True` default) and searches it case-insensitively anywhere in
the field; missing fields contribute `False`.  The fragment below models
the regex constructs: literals, the any-char dot and the postfix star;
other metacharacters are outside the modelled fragment (`none`). -/

inductive RAtom where
  | lit (c : Char)
  | dot
deriving DecidableEq

inductive RElem where
  | once (a : RAtom)
  | star (a : RAtom)
deriving DecidableEq

/-- `re.IGNORECASE` comparison of one atom against one character; the
dot matches anything but a newline. -/
def atomMatch (a : RAtom) (c : Char) : Bool :=
  match a with
  | .lit l => c.toLower == l.toLower
  | .dot => c != '\n'

/-- Suffixes reachable by letting `a*` consume a prefix of the text. -/
def starSuffixes (a : RAtom) : List Char → List (List Char)
  | [] => [[]]
  | c :: cs => (c :: cs) :: (if atomMatch a c then starSuffixes a cs else [])

/-- Match of a compiled pattern against a prefix of the text. -/
def matchHere : List RElem → List Char → Bool
  | [], _ => true
  | .once _ :: _, [] => false
  | .once a :: ps, c :: cs => atomMatch a c && matchHere ps cs
  | .star a :: ps, cs => (starSuffixes a cs).any fun cs2 => matchHere ps cs2

/-- `re.search`: match attempted at every start position. -/
def research : List RElem → List Char → Bool
  | p, [] => matchHere p []
  | p, c :: cs => matchHere p (c :: cs) || research p cs

/-- Metacharacters other than the dot (which the fragment supports). -/
def isMetaOther (c : Char) : Bool :=
  c == '^' || c == '$' || c == '*' || c == '+' || c == '?' ||
  c == '\x7b' || c == '\x7d' || c == '[' || c == ']' ||
  c == '(' || c == ')' || c == '|' || c == '\\'

def toAtom (c : Char) : RAtom :=
  if c == '.' then .dot else .lit c

/-- Pattern compilation over the modelled fragment: a postfix `*` turns
the preceding atom into a star. -/
def compile : List Char → Option (List RElem)
  | [] => some []
  | [c] => if isMetaOther c then none else some [RElem.once (toAtom c)]
  | c :: c2 :: cs2 =>
      if isMetaOther c then none
      else if c2 = '*' then (compile cs2).map fun r => RElem.star (toAtom c) :: r
      else (compile (c2 :: cs2)).map fun r => RElem.once (toAtom c) :: r

/-- One cell of `Series.str.contains(pat, case=False, na=False)`:
missing field never matches; otherwise a case-insensitive regex search. -/
def seriesContains (pat : String) (c : Cell) : Option Bool :=
  match c with
  | none => some false
  | some s => (compile pat.data).map fun p => research p s.data

/-- `df[df[field].str.contains(pat, case=False, na=False)]`. -/
def filterByField (f : Record → Cell) (pat : String) :
    List Record → Option (List Record)
  | [] => some []
  | r :: rs =>
      match seriesContains pat (f r), filterByField f pat rs with
      | some b, some rest => some (if b then r :: rest else rest)
      | _, _ => none

/-! ### Boolean substring check (for relating the filter to the
spec's substring reading) -/

def isPrefB : List Char → List Char → Bool
  | [], _ => true
  | _ :: _, [] => false
  | a :: as, b :: bs => a == b && isPrefB as bs

def isInfB : List Char → List Char → Bool
  | n, [] => isPrefB n []
  | n, c :: t => isPrefB n (c :: t) || isInfB n t

/-! ### Concrete inputs used by witnesses and counterexamples -/

def hdrW1 : List (Option String) := [some "Dt. entrada", some "Total"]

def rowsW1 : List Row :=
  [[some "10/01/2024", some "1000"],
   [some "xx", some "5"],
   [some "11/01/2024", some "0"]]

def outW1 : List Record :=
  [{ data_entrada := ⟨2024, 1, 10⟩, cliente := none, fornecedor := none,
     obra := none, tipo_custo := none, total := 1000 }]

/-- Header with 22 named columns; the one at index 21 is `X`. -/
def hdrW2 : List (Option String) :=
  [some "c00", some "c01", some "c02", some "c03", some "c04", some "c05",
   some "c06", some "c07", some "c08", some "c09", some "c10", some "c11",
   some "c12", some "c13", some "c14", some "c15", some "c16", some "c17",
   some "c18", some "c19", some "c20", some "X"]

def rsW4 : Cell := some "7,5"

def rsC5 : List Record :=
  [{ data_entrada := ⟨2024, 1, 10⟩, cliente := none, fornecedor := none,
     obra := none, tipo_custo := none, total := 5 },
   { data_entrada := ⟨2024, 1, 11⟩, cliente := none, fornecedor := none,
     obra := none, tipo_custo := some "Material", total := 3 }]

def rsW5 : List Record :=
  [{ data_entrada := ⟨2024, 1, 10⟩, cliente := none, fornecedor := none,
     obra := none, tipo_custo := some "Material", total := 3 }]

def rsC6 : List Record :=
  [{ data_entrada := ⟨2024, 2, 1⟩, cliente := none, fornecedor := none,
     obra := none, tipo_custo := none, total := 10 },
   { data_entrada := ⟨2024, 1, 31⟩, cliente := none, fornecedor := none,
     obra := none, tipo_custo := none, total := 20 }]

def rsC8 : List Record :=
  [{ data_entrada := ⟨2024, 1, 1⟩, cliente := some "X", fornecedor := some "B",
     obra := some "O1", tipo_custo := some "M", total := 5 },
   { data_entrada := ⟨2024, 1, 2⟩, cliente := some "Y", fornecedor := some "A",
     obra := some "O2", tipo_custo := some "L", total := 5 }]

def rC9 : Record :=
  { data_entrada := ⟨2024, 1, 1⟩, cliente := none, fornecedor := some "abc",
    obra := none, tipo_custo := none, total := 1 }

def rsW8 : List Record :=
  [{ data_entrada := ⟨2024, 1, 1⟩, cliente := some "X", fornecedor := some "A",
     obra := some "O", tipo_custo := some "M", total := 7 }]

/-! ### Helper lemmas: stable sort -/

theorem mem_stableInsert (le : α → α → Bool) (x a : α) (l : List α) :
    a ∈ stableInsert le x l ↔ a = x ∨ a ∈ l := by
  induction l with
  | nil => simp [stableInsert]
  | cons y ys ih =>
      simp only [stableInsert]
      split
      · simp [or_comm, or_left_comm]
      · simp [ih, or_left_comm]

theorem stableInsert_perm (le : α → α → Bool) (x : α) (l : List α) :
    (stableInsert le x l).Perm (x :: l) := by
  induction l with
  | nil => exact List.Perm.refl _
  | cons y ys ih =>
      simp only [stableInsert]
      split
      · exact List.Perm.refl _
      · exact (List.Perm.cons y ih).trans (List.Perm.swap x y ys)

theorem stableSort_perm (le : α → α → Bool) (l : List α) :
    (stableSort le l).Perm l := by
  induction l with
  | nil => exact List.Perm.refl _
  | cons x xs ih =>
      exact (stableInsert_perm le x (stableSort le xs)).trans (List.Perm.cons x ih)

theorem length_stableSort (le : α → α → Bool) (l : List α) :
    (stableSort le l).length = l.length :=
  (stableSort_perm le l).length_eq

theorem pairwise_stableInsert (le : α → α → Bool) (S : α → α → Prop)
    (htrans : ∀ a b c, le a b = true → le b c = true → le a c = true)
    (htot : ∀ a b, le a b = true ∨ le b a = true)
    (x : α) (l : List α)
    (hl : l.Pairwise fun a b => le a b = true ∧ (le b a = true → S a b))
    (hx : ∀ b ∈ l, S x b) :
    (stableInsert le x l).Pairwise
      fun a b => le a b = true ∧ (le b a = true → S a b) := by
  induction l with
  | nil => simp [stableInsert]
  | cons y ys ih =>
      rcases List.pairwise_cons.mp hl with ⟨hy, hys⟩
      simp only [stableInsert]
      split
      · rename_i hxy
        refine List.pairwise_cons.mpr ⟨?_, hl⟩
        intro b hb
        rcases List.mem_cons.mp hb with rfl | hb
        · exact ⟨hxy, fun _ => hx b (List.mem_cons_self _ _)⟩
        · exact ⟨htrans x y b hxy (hy b hb).1, fun _ => hx b (List.mem_cons.mpr (Or.inr hb))⟩
      · rename_i hxy
        have hyx : le y x = true := (htot x y).resolve_left hxy
        refine List.pairwise_cons.mpr ⟨?_, ih hys (fun b hb => hx b (List.mem_cons.mpr (Or.inr hb)))⟩
        intro b hb
        rcases (mem_stableInsert le x b ys).mp hb with rfl | hb
        · exact ⟨hyx, fun h => absurd h hxy⟩
        · exact hy b hb

theorem pairwise_stableSort (le : α → α → Bool) (S : α → α → Prop)
    (htrans : ∀ a b c, le a b = true → le b c = true → le a c = true)
    (htot : ∀ a b, le a b = true ∨ le b a = true)
    (l : List α) (hS : l.Pairwise S) :
    (stableSort le l).Pairwise
      fun a b => le a b = true ∧ (le b a = true → S a b) := by
  induction l with
  | nil => simp [stableSort]
  | cons x xs ih =>
      rcases List.pairwise_cons.mp hS with ⟨hx, hxs⟩
      exact pairwise_stableInsert le S htrans htot x (stableSort le xs) (ih hxs)
        (fun b hb => hx b ((stableSort_perm le xs).mem_iff.mp hb))

/-! ### Helper lemmas: lexicographic code-point order -/

theorem natListLt_irrefl (l : List Nat) : natListLt l l = false := by
  induction l with
  | nil => rfl
  | cons a as ih => simp [natListLt, ih]

theorem natListLt_trans (a b c : List Nat) (hab : natListLt a b = true)
    (hbc : natListLt b c = true) : natListLt a c = true := by
  induction a generalizing b c with
  | nil =>
      cases b with
      | nil => simp [natListLt] at hab
      | cons y ys =>
          cases c with
          | nil => simp [natListLt] at hbc
          | cons z zs => simp [natListLt]
  | cons x xs ih =>
      cases b with
      | nil => simp [natListLt] at hab
      | cons y ys =>
          cases c with
          | nil => simp [natListLt] at hbc
          | cons z zs =>
              simp only [natListLt, Bool.or_eq_true, Bool.and_eq_true,
                decide_eq_true_eq, beq_iff_eq] at hab hbc ⊢
              rcases hab with h1 | ⟨h1, h1r⟩ <;> rcases hbc with h2 | ⟨h2, h2r⟩
              · exact Or.inl (Nat.lt_trans h1 h2)
              · exact Or.inl (h2 ▸ h1)
              · exact Or.inl (h1 ▸ h2)
              · exact Or.inr ⟨h1.trans h2, ih ys zs h1r h2r⟩

theorem natListLt_split (a c : List Nat) (hac : natListLt a c = true) :
    ∀ b, natListLt a b = true ∨ natListLt b c = true := by
  induction a generalizing c with
  | nil =>
      cases c with
      | nil => simp [natListLt] at hac
      | cons z zs =>
          intro b
          cases b with
          | nil => exact Or.inr (by simp [natListLt])
          | cons y ys => exact Or.inl (by simp [natListLt])
  | cons x xs ih =>
      cases c with
      | nil => simp [natListLt] at hac
      | cons z zs =>
          intro b
          cases b with
          | nil => exact Or.inr (by simp [natListLt])
          | cons y ys =>
              simp only [natListLt, Bool.or_eq_true, Bool.and_eq_true,
                decide_eq_true_eq, beq_iff_eq] at hac ⊢
              rcases hac with h | ⟨h, hr⟩
              · rcases Nat.lt_or_ge x y with hxy | hxy
                · exact Or.inl (Or.inl hxy)
                · exact Or.inr (Or.inl (Nat.lt_of_le_of_lt hxy h))
              · rcases Nat.lt_trichotomy x y with hxy | hxy | hxy
                · exact Or.inl (Or.inl hxy)
                · rcases ih zs hr ys with h2 | h2
                  · exact Or.inl (Or.inr ⟨hxy, h2⟩)
                  · exact Or.inr (Or.inr ⟨hxy ▸ h, h2⟩)
                · exact Or.inr (Or.inl (h ▸ hxy))

theorem strLeB_trans (a b c : String) (hab : strLeB a b = true)
    (hbc : strLeB b c = true) : strLeB a c = true := by
  simp only [strLeB, Bool.not_eq_true'] at hab hbc ⊢
  by_contra hac
  have hac2 : natListLt (strKey c) (strKey a) = true := by
    cases h : natListLt (strKey c) (strKey a)
    · exact absurd h hac
    · rfl
  rcases natListLt_split (strKey c) (strKey a) hac2 (strKey b) with h | h
  · simp [h] at hbc
  · simp [h] at hab

theorem strLeB_total (a b : String) : strLeB a b = true ∨ strLeB b a = true := by
  simp only [strLeB, Bool.not_eq_true']
  by_cases h : natListLt (strKey b) (strKey a) = true
  · right
    by_cases h2 : natListLt (strKey a) (strKey b) = true
    · exfalso
      have := natListLt_trans _ _ _ h h2
      rw [natListLt_irrefl] at this
      exact Bool.false_ne_true this
    · exact Bool.eq_false_iff.mpr h2
  · left
    exact Bool.eq_false_iff.mpr h

theorem strLeB_false_ne (a b : String) (h : strLeB b a = false) : a ≠ b := by
  intro hab
  subst hab
  rw [strLeB, natListLt_irrefl] at h
  simp at h

/-! ### Helper lemmas: distinct values -/

theorem uniqueFirst_nodup (l : List String) : (uniqueFirst l).Nodup := by
  induction l with
  | nil => simp [uniqueFirst]
  | cons a as ih =>
      refine List.nodup_cons.mpr ⟨?_, List.Nodup.filter _ ih⟩
      intro hmem
      rcases List.mem_filter.mp hmem with ⟨_, hne⟩
      simp at hne

theorem mem_uniqueFirst (l : List String) (b : String) :
    b ∈ uniqueFirst l ↔ b ∈ l := by
  induction l with
  | nil => simp [uniqueFirst]
  | cons a as ih =>
      simp only [uniqueFirst, List.mem_cons]
      constructor
      · rintro (rfl | hb)
        · exact Or.inl rfl
        · exact Or.inr (ih.mp (List.mem_filter.mp hb).1)
      · rintro (rfl | hb)
        · exact Or.inl rfl
        · by_cases hba : b = a
          · exact Or.inl hba
          · exact Or.inr (List.mem_filter.mpr ⟨ih.mpr hb, by simp [hba]⟩)

/-! ### Helper lemmas: descending rational comparator -/

theorem statLeB_trans (a b c : FornecedorStats) (hab : statLeB a b = true)
    (hbc : statLeB b c = true) : statLeB a c = true := by
  simp only [statLeB, Bool.not_eq_true', decide_eq_false_iff_not, not_lt] at hab hbc ⊢
  exact hbc.trans hab

theorem statLeB_total (a b : FornecedorStats) :
    statLeB a b = true ∨ statLeB b a = true := by
  simp only [statLeB, Bool.not_eq_true', decide_eq_false_iff_not, not_lt]
  exact le_total b.total_gasto a.total_gasto

/-! ### Helper lemmas: membership, indexing -/

theorem contains_iff_mem (l : List String) (a : String) :
    l.contains a = true ↔ a ∈ l :=
  List.elem_iff

theorem getD_mem (l : List String) (n : Nat) (d : String) (h : n < l.length) :
    l.getD n d ∈ l := by
  induction l generalizing n with
  | nil => simp at h
  | cons x xs ih =>
      cases n with
      | zero => simp [List.getD]
      | succ m =>
          have hm : m < xs.length := by simpa using h
          simpa [List.getD] using Or.inr (by simpa [List.getD] using ih m hm)

/-! ### Helper lemmas: group sums partition the records -/

theorem sum_map_zero (l : List String) : (l.map fun _ => (0 : ℚ)).sum = 0 := by
  induction l <;> simp [*]

theorem sum_ite_key (K : List String) (hnd : K.Nodup) (c : Cell) (t : ℚ) :
    (K.map fun k => if c == some k then t else 0).sum =
      match c with
      | some v => if v ∈ K then t else 0
      | none => 0 := by
  cases c with
  | none =>
      have : (K.map fun k => if (none : Cell) == some k then t else 0) =
          K.map fun _ => (0 : ℚ) :=
        List.map_congr_left fun k _ => by simp
      rw [this, sum_map_zero]
  | some v =>
      induction K with
      | nil => simp
      | cons k K ih =>
          rcases List.nodup_cons.mp hnd with ⟨hk, hnd2⟩
          by_cases hv : v = k
          · subst hv
            have htail : (K.map fun j => if (some v : Cell) == some j then t else 0) =
                K.map fun _ => (0 : ℚ) :=
              List.map_congr_left fun j hj => by
                have : v ≠ j := fun h => hk (h ▸ hj)
                simp [this]
            simp only [List.map_cons, List.sum_cons, htail, sum_map_zero]
            simp
          · have := ih hnd2
            simp only [List.map_cons, List.sum_cons, this]
            have hbeq : ((some v : Cell) == some k) = false := by
              simp [hv]
            rw [hbeq]
            simp [hv]

theorem group_filter_sum (K : List String) (hnd : K.Nodup)
    (key : Record → Cell) (rs : List Record) :
    (K.map fun k =>
      ((rs.filter fun r => key r == some k).map Record.total).sum).sum =
      ((rs.filter fun r =>
        match key r with
        | some v => decide (v ∈ K)
        | none => false).map Record.total).sum := by
  induction rs with
  | nil => simp [sum_map_zero]
  | cons r rs ih =>
      have hsplit : ∀ p : Record → Bool,
          ((List.filter p (r :: rs)).map Record.total).sum =
            (if p r then r.total else 0) + ((List.filter p rs).map Record.total).sum := by
        intro p
        by_cases h : p r <;> simp [List.filter_cons, h]
      have hL : (K.map fun k =>
          ((List.filter (fun r2 => key r2 == some k) (r :: rs)).map Record.total).sum) =
          K.map fun k =>
            (if key r == some k then r.total else 0) +
              ((List.filter (fun r2 => key r2 == some k) rs).map Record.total).sum :=
        List.map_congr_left fun k _ => hsplit _
      rw [hL, List.sum_map_add, sum_ite_key K hnd (key r) r.total, ih,
        hsplit]
      cases hkr : key r with
      | none => simp
      | some v => by_cases hv : v ∈ K <;> simp [hv]

/-! ### Helper lemmas: the row pipeline of `load_data` -/

theorem cleanTotals_filterMap (hdr : List (Option String)) (tcol : String)
    (g : Row × ℚ → Option Record) :
    ∀ (rows : List Row) (pairs : List (Row × ℚ)),
      cleanTotals hdr tcol rows = .ok pairs →
      pairs.filterMap g = rows.filterMap fun r =>
        match clean_numeric (cellAt hdr r tcol) with
        | .ok t => g (r, t)
        | .error _ => none := by
  intro rows
  induction rows with
  | nil =>
      intro pairs h
      simp only [cleanTotals] at h
      cases h
      simp
  | cons r rows ih =>
      intro pairs h
      simp only [cleanTotals] at h
      cases hc : clean_numeric (cellAt hdr r tcol) with
      | error e => rw [hc] at h; cases h
      | ok t =>
          rw [hc] at h
          cases hrec : cleanTotals hdr tcol rows with
          | error e => rw [hrec] at h; cases h
          | ok rest =>
              rw [hrec] at h
              cases h
              rw [List.filterMap_cons, List.filterMap_cons, ih rest hrec, hc]

/-! ### Helper lemmas: nonnegativity of the normalizer without a sign -/

theorem parseMagAux_nonneg (ip rest : List Char) (q : ℚ)
    (h : parseMagAux ip rest = some q) : 0 ≤ q := by
  cases rest with
  | nil =>
      simp only [parseMagAux] at h
      split_ifs at h
      rw [Option.some_inj] at h
      subst h
      exact Nat.cast_nonneg _
  | cons c fr =>
      simp only [parseMagAux] at h
      split_ifs at h
      rw [Option.some_inj] at h
      subst h
      have ha : (0 : ℚ) ≤ (digitsNat ip : ℚ) := Nat.cast_nonneg _
      have hb : (0 : ℚ) ≤ (digitsNat fr : ℚ) / (10 ^ fr.length) :=
        div_nonneg (Nat.cast_nonneg _) (by positivity)
      linarith

theorem parseMag_nonneg (cs : List Char) (q : ℚ) (h : parseMag cs = some q) :
    0 ≤ q :=
  parseMagAux_nonneg _ _ q h

theorem mem_pyStrip (cs : List Char) (c : Char) (h : c ∈ pyStrip cs) : c ∈ cs := by
  unfold pyStrip at h
  rw [List.mem_reverse] at h
  have h2 := (List.dropWhile_sublist _).subset h
  rw [List.mem_reverse] at h2
  exact (List.dropWhile_sublist _).subset h2

theorem minus_not_mem_cleanedChars (cs : List Char) (h : '-' ∉ cs) :
    '-' ∉ cleanedChars cs := by
  intro hmem
  have h1 := mem_pyStrip _ _ hmem
  rcases List.mem_map.mp h1 with ⟨c, hc, hceq⟩
  by_cases hcomma : c = ','
  · rw [hcomma] at hceq
    simp at hceq
  · rw [if_neg hcomma] at hceq
    subst hceq
    exact h (List.mem_filter.mp hc).1

theorem parseFloat_nonneg (cs : List Char) (hm : '-' ∉ cs) (q : ℚ)
    (h : parseFloat cs = some q) : 0 ≤ q := by
  cases cs with
  | nil => simp [parseFloat] at h
  | cons c t =>
      have hc : c ≠ '-' := fun hcm => hm (hcm ▸ List.mem_cons_self c t)
      rw [parseFloat, if_neg hc] at h
      by_cases hp : c = '+'
      · rw [if_pos hp] at h
        exact parseMag_nonneg t q h
      · rw [if_neg hp] at h
        exact parseMag_nonneg (c :: t) q h

theorem parseWordMag_no_ninf (cs : List Char) (f : PyFloat)
    (h : parseWordMag cs = some f) :
    f = PyFloat.nan ∨ f = PyFloat.pinf := by
  simp only [parseWordMag] at h
  split_ifs at h
  · exact Or.inl (Option.some_inj.mp h).symm
  · exact Or.inr (Option.some_inj.mp h).symm
  · exact Or.inr (Option.some_inj.mp h).symm

theorem parseWordPy_not_neg (cs : List Char) (hm : '-' ∉ cs) (f : PyFloat)
    (h : parseWordPy cs = some f) : pyLtZero f = false := by
  cases cs with
  | nil => exact Option.noConfusion h
  | cons c t =>
      have hc : c ≠ '-' := fun hcm => hm (hcm ▸ List.mem_cons_self c t)
      rw [parseWordPy, if_neg hc] at h
      by_cases hp : c = '+'
      · rw [if_pos hp] at h
        rcases parseWordMag_no_ninf t f h with rfl | rfl <;> rfl
      · rw [if_neg hp] at h
        rcases parseWordMag_no_ninf (c :: t) f h with rfl | rfl <;> rfl

theorem parseFloatPy_not_neg (cs : List Char) (hm : '-' ∉ cs) (f : PyFloat)
    (h : parseFloatPy cs = some f) : pyLtZero f = false := by
  rw [parseFloatPy] at h
  cases hp : parseFloat cs with
  | some q =>
      rw [hp] at h
      simp only [Option.some_inj] at h
      subst h
      have hq := parseFloat_nonneg cs hm q hp
      simp only [pyLtZero]
      exact decide_eq_false (not_lt.mpr hq)
  | none =>
      rw [hp] at h
      exact parseWordPy_not_neg cs hm f h

theorem clean_numeric_finite (v : Cell) (q : ℚ)
    (h : clean_numeric v = .ok q) : clean_numeric_py v = .ok (.finite q) := by
  cases v with
  | none =>
      simp only [clean_numeric, Except.ok.injEq] at h
      subst h
      rfl
  | some s =>
      simp only [clean_numeric] at h
      simp only [clean_numeric_py]
      split_ifs at h ⊢
      · simp only [Except.ok.injEq] at h
        subst h
        rfl
      · simp only [Except.ok.injEq] at h
        subst h
        rfl
      · cases hp : parseFloat (cleanedChars s.data) with
        | none => rw [hp] at h; exact Except.noConfusion h
        | some q2 =>
            rw [hp] at h
            simp only [Except.ok.injEq] at h
            subst h
            rw [parseFloatPy, hp]

/-! ### Helper lemmas: literal patterns are substring checks -/

theorem compile_lits (l : List Char)
    (hplain : ∀ c ∈ l, isMetaOther c = false ∧ c ≠ '.') :
    compile l = some (l.map fun c => RElem.once (RAtom.lit c)) := by
  induction l with
  | nil => rfl
  | cons c t ih =>
      have hc := hplain c (List.mem_cons_self c t)
      have hrest : ∀ x ∈ t, isMetaOther x = false ∧ x ≠ '.' :=
        fun x hx => hplain x (List.mem_cons.mpr (Or.inr hx))
      have hatom : toAtom c = RAtom.lit c := by
        have : (c == '.') = false := by simp [hc.2]
        simp [toAtom, this]
      cases t with
      | nil =>
          simp [compile, hc.1, hatom]
      | cons c2 t2 =>
          have hc2 : c2 ≠ '*' := by
            intro hstar
            have := (hplain c2 (List.mem_cons.mpr (Or.inr (List.mem_cons_self c2 t2)))).1
            rw [hstar] at this
            simp [isMetaOther] at this
          rw [compile, if_neg (by simp [hc.1]), if_neg hc2, ih hrest, hatom]
          rfl

theorem matchHere_lits (l cs : List Char) :
    matchHere (l.map fun c => RElem.once (RAtom.lit c)) cs =
      isPrefB (l.map Char.toLower) (cs.map Char.toLower) := by
  induction l generalizing cs with
  | nil => cases cs <;> simp [matchHere, isPrefB]
  | cons a as ih =>
      cases cs with
      | nil => simp [matchHere, isPrefB]
      | cons b bs =>
          simp only [List.map_cons, matchHere, isPrefB, atomMatch, ih]
          by_cases hab : b.toLower = a.toLower
          · simp [hab]
          · rw [beq_eq_false_iff_ne.mpr hab,
              beq_eq_false_iff_ne.mpr (fun h => hab h.symm)]

theorem research_lits (l cs : List Char) :
    research (l.map fun c => RElem.once (RAtom.lit c)) cs =
      isInfB (l.map Char.toLower) (cs.map Char.toLower) := by
  induction cs with
  | nil => simp [research, isInfB, matchHere_lits]
  | cons c t ih => simp [research, isInfB, matchHere_lits, ih]

/-! ### Helper lemmas: the amount-column key in the mapping -/

theorem find_total (ct : String) :
    (mappingKeys ct).find?
      (fun k => column_mapping ct k == some "total") = some ct := by
  by_cases hct : fixedKeys.contains ct = true
  · have hmem : ct ∈ fixedKeys := (contains_iff_mem _ _).mp hct
    rw [mappingKeys, if_pos hct]
    fin_cases hmem <;> decide
  · have hmem : ct ∉ fixedKeys := fun h => hct ((contains_iff_mem _ _).mpr h)
    have hne : ∀ k ∈ fixedKeys, ct ≠ k := fun k hk h => hmem (h ▸ hk)
    rw [mappingKeys, if_neg hct, List.find?_append]
    have hnone : fixedKeys.find?
        (fun k => column_mapping ct k == some "total") = none := by
      have h1 := hne "Dt. entrada" (by simp [fixedKeys])
      have h2 := hne "Cliente" (by simp [fixedKeys])
      have h3 := hne "Obra/Centro de custo" (by simp [fixedKeys])
      have h4 := hne "Doc. financ." (by simp [fixedKeys])
      have h5 := hne "Fornecedor" (by simp [fixedKeys])
      have h6 := hne "Tipo Custo" (by simp [fixedKeys])
      have h7 := hne "Qtd." (by simp [fixedKeys])
      have h8 := hne "Und." (by simp [fixedKeys])
      have h9 := hne "Insumo" (by simp [fixedKeys])
      have h10 := hne "Fase" (by simp [fixedKeys])
      simp [fixedKeys, List.find?, column_mapping,
        h1.symm, h2.symm, h3.symm, h4.symm, h5.symm,
        h6.symm, h7.symm, h8.symm, h9.symm, h10.symm]
    rw [hnone]
    simp [List.find?, column_mapping]

/-! ## Claim theorems -/

/-- C3: the numeric normalizer satisfies the four test vectors: the empty
string and the single dash normalize to 0, the locale string `1.234,56`
normalizes to 1234.56, and `abc` fails with the normalization error. -/
theorem c3_normalizer_vectors :
    clean_numeric (some "") = .ok 0 ∧
    clean_numeric (some "-") = .ok 0 ∧
    clean_numeric (some "1.234,56") = .ok (123456 / 100) ∧
    clean_numeric (some "abc") = .error .valueError := by
  refine ⟨by decide, by decide, ?_, by decide⟩
  have h1 : clean_numeric (some "1.234,56") =
      .ok ((digitsNat ['1', '2', '3', '4'] : ℚ) +
        (digitsNat ['5', '6'] : ℚ) / (10 ^ (['5', '6'] : List Char).length)) := rfl
  rw [h1, show digitsNat ['1', '2', '3', '4'] = 1234 from by decide,
    show digitsNat ['5', '6'] = 56 from by decide,
    show (['5', '6'] : List Char).length = 2 from rfl]
  norm_num

/-- C4 counterexample: the claim says every token the normalizer accepts
yields a non-negative decimal, but `clean_numeric_py` maps the token
`-5` to the negative value -5, and the token `Nan` (a string cell, since
`Nan` is not among the `read_csv` default missing markers) succeeds with
the float `NaN`, which is not a non-negative decimal either. -/
theorem c4_counterexample :
    clean_numeric_py (some "-5") = .ok (.finite (-5)) ∧ ((-5 : ℚ) < 0) ∧
    clean_numeric_py (some "Nan") = .ok PyFloat.nan := by
  refine ⟨?_, by decide, by decide⟩
  have h1 : clean_numeric_py (some "-5") =
      .ok (.finite (-(digitsNat ['5'] : ℚ))) := rfl
  rw [h1, show digitsNat ['5'] = 5 from by decide]
  norm_num

/-- C4 amended: whenever the normalizer succeeds on a token without a
minus sign, the result is never negative in Python's own comparison: it
is a non-negative finite decimal, positive infinity, or `NaN` (for which
`v < 0` is false); a negative result needs a minus-signed token. -/
theorem c4_nonneg_without_minus (c : Cell)
    (h : ∀ s, c = some s → '-' ∉ s.data) (v : PyFloat)
    (hok : clean_numeric_py c = .ok v) : pyLtZero v = false := by
  cases c with
  | none =>
      simp only [clean_numeric_py, Except.ok.injEq] at hok
      subst hok
      decide
  | some s =>
      have hmem : '-' ∉ s.data := h s rfl
      simp only [clean_numeric_py] at hok
      split_ifs at hok
      · simp only [Except.ok.injEq] at hok
        subst hok
        decide
      · simp only [Except.ok.injEq] at hok
        subst hok
        decide
      · cases hp : parseFloatPy (cleanedChars s.data) with
        | none => rw [hp] at hok; exact Except.noConfusion hok
        | some f =>
            rw [hp] at hok
            simp only [Except.ok.injEq] at hok
            subst hok
            exact parseFloatPy_not_neg _ (minus_not_mem_cleanedChars _ hmem) _ hp

/-- C4 witness: the amended theorem applied to the sign-free token `75`. -/
theorem c4_witness :
    clean_numeric_py (some "75") = .ok (.finite 75) ∧
    pyLtZero (PyFloat.finite 75) = false :=
  ⟨by decide, c4_nonneg_without_minus (some "75")
    (fun s hs => by cases hs; decide) (.finite 75) (by decide)⟩

/-- C5 counterexample: with one record whose cost type is missing, the
per-cost-type groups are empty (pandas `groupby` drops missing keys), so
the group totals sum to 0 while `total_valor` is 5; the record-count
equation still holds. -/
theorem c5_counterexample :
    ((summaryOf rsC5).total_por_tipo.map Prod.snd).sum ≠
      (summaryOf rsC5).total_valor ∧
    (summaryOf rsC5).total_registros = rsC5.length ∧
    ((summaryOf rsC5).total_por_tipo.map Prod.snd).sum =
      ((rsC5.filter fun r => (r.tipo_custo).isSome).map Record.total).sum := by
  refine ⟨?_, rfl, ?_⟩
  · simp only [summaryOf, groupTotals, groupKeys, uniqueFirst, stableSort,
      stableInsert, rsC5, List.filterMap_cons, List.filterMap_nil,
      List.filter_cons, List.filter_nil, List.map_cons, List.map_nil,
      List.sum_cons, List.sum_nil, beq_iff_eq, Option.some.injEq,
      Function.comp]
    simp
  · simp only [summaryOf, groupTotals, groupKeys, uniqueFirst, stableSort,
      stableInsert, rsC5, List.filterMap_cons, List.filterMap_nil,
      List.filter_cons, List.filter_nil, List.map_cons, List.map_nil,
      List.sum_cons, List.sum_nil, beq_iff_eq, Option.some.injEq,
      Function.comp]
    simp

/-- C6: the recent-transactions table sorts by the formatted `dd/mm/YYYY`
STRING, not by date.  On two records dated 2024-02-01 and 2024-01-31 the
view lists 31/01/2024 first although it is the strictly earlier date, so
the view is not sorted by date descending; the length is still
`min 100 n`. -/
theorem c6_string_sort_not_date_sort :
    (table_data rsC6).map TableRow.data_entrada = ["31/01/2024", "01/02/2024"] ∧
    dateKey ⟨2024, 1, 31⟩ < dateKey ⟨2024, 2, 1⟩ ∧
    (table_data rsC6).length = min 100 rsC6.length := by decide

/-- C7: on an empty filtered record set the summary block computes the
mean as `NaN` (modelled `none`), not 0, and the analysis then FAILS: the
top-10 projection's `.tolist()` on the empty-frame `apply` result raises
`AttributeError`, so `get_data` aborts with an error and no summary is
reported -- against both halves of the claim. -/
theorem c7_empty_analysis_fails :
    get_data_result [] = .error .attributeError ∧
    (summaryOf []).media_valor = none ∧
    (summaryOf []).media_valor ≠ some 0 := by decide

/-- C8 counterexample: suppliers `B` then `A` appear in first-seen order
`[B, A]` with equal totals, yet the rollup lists `A` before `B`: ties are
broken by the ascending group order of `groupby`, not by first-seen
order as the claim states. -/
theorem c8_counterexample :
    (analise_fornecedores rsC8).map FornecedorStats.fornecedor = ["A", "B"] ∧
    uniqueFirst (rsC8.filterMap Record.fornecedor) = ["B", "A"] ∧
    (statsFor rsC8 "A").total_gasto = (statsFor rsC8 "B").total_gasto := by
  refine ⟨?_, by decide, ?_⟩
  · simp [analise_fornecedores, supplierKeys, statsFor, stableSort, stableInsert,
      statLeB, strLeB, strKey, natListLt, uniqueFirst, rsC8,
      List.filter_cons, List.filterMap_cons, beq_iff_eq]
  · simp [statsFor, rsC8, List.filter_cons, beq_iff_eq]

/-- C9 counterexample: the filter retains a record whose supplier is
`abc` under the filter string `a.c`, although `a.c` is not a substring
of `abc` (even case-insensitively): `str.contains` treats the filter as
a regular expression. -/
theorem c9_counterexample :
    filterByField Record.fornecedor "a.c" [rC9] = some [rC9] ∧
    isInfB ("a.c".data.map Char.toLower) ("abc".data.map Char.toLower) = false := by
  decide

/-- C1: whenever `load_data` returns a record sequence, that sequence is
exactly the in-order subsequence of the source rows whose entry date
parses in day/month/year format and whose normalized amount is strictly
positive, and its length is at most the input row count. -/
theorem c1_load_filters_and_preserves_order (hdr : List (Option String))
    (rows : List Row) (out : List Record) (dcol tcol : String)
    (hd : fieldSrcH hdr "data_entrada" = some dcol)
    (ht : fieldSrcH hdr "total" = some tcol)
    (hok : load_data hdr rows = .ok out) :
    out = rows.filterMap (fun r =>
      match parseDate (cellAt hdr r dcol), clean_numeric (cellAt hdr r tcol) with
      | some d, .ok t => if (0 : ℚ) < t then some (mkRecord hdr r d t) else none
      | _, _ => none) ∧
    out.length ≤ rows.length := by
  have hmain : out = rows.filterMap (fun r =>
      match parseDate (cellAt hdr r dcol), clean_numeric (cellAt hdr r tcol) with
      | some d, .ok t => if (0 : ℚ) < t then some (mkRecord hdr r d t) else none
      | _, _ => none) := by
    simp only [load_data, hd, ht] at hok
    cases hcc : cleanTotals hdr tcol rows with
    | error e => rw [hcc] at hok; exact Except.noConfusion hok
    | ok pairs =>
        rw [hcc] at hok
        simp only [Except.ok.injEq] at hok
        subst hok
        rw [cleanTotals_filterMap hdr tcol _ rows pairs hcc]
        refine congrArg (List.filterMap · rows) (funext fun r => ?_)
        dsimp only
        cases clean_numeric (cellAt hdr r tcol) <;>
          cases parseDate (cellAt hdr r dcol) <;> rfl
  exact ⟨hmain, hmain ▸ List.length_filterMap_le _ _⟩

/-- C1 witness: a two-column source with one valid row, one row with an
unparseable date and one zero-amount row loads exactly the valid row. -/
theorem c1_witness :
    load_data hdrW1 rowsW1 = .ok outW1 ∧
    (outW1 = rowsW1.filterMap (fun r =>
      match parseDate (cellAt hdrW1 r "Dt. entrada"),
          clean_numeric (cellAt hdrW1 r "Total") with
      | some d, .ok t => if (0 : ℚ) < t then some (mkRecord hdrW1 r d t) else none
      | _, _ => none) ∧
    outW1.length ≤ rowsW1.length) :=
  ⟨by decide, c1_load_filters_and_preserves_order hdrW1 rowsW1 outW1
    "Dt. entrada" "Total" (by decide) (by decide) (by decide)⟩

/-- C2: the amount column is chosen by the fixed positional fallback (the
loader performs no separate header matching for the amount column): with
more than 21 named columns the amount is sourced from the column at
0-based index 21; otherwise from the column literally named `Total`
(whose absence is the schema failure of C10). -/
theorem c2_amount_column_positional (hdr : List (Option String)) :
    ((colunas hdr).length > 21 →
      fieldSrcH hdr "total" = some ((colunas hdr).getD 21 "")) ∧
    ((colunas hdr).length ≤ 21 →
      fieldSrcH hdr "total" =
        if "Total" ∈ colunas hdr then some "Total" else none) := by
  constructor
  · intro h21
    have hct : coluna_total (colunas hdr) = (colunas hdr).getD 21 "" := by
      rw [coluna_total, if_pos h21]
    simp only [fieldSrcH, hct, find_total]
    rw [if_pos ((contains_iff_mem _ _).mpr (getD_mem _ 21 "" h21))]
  · intro h21
    have hct : coluna_total (colunas hdr) = "Total" := by
      rw [coluna_total, if_neg (by omega)]
    simp only [fieldSrcH, hct, find_total]
    by_cases hmem : "Total" ∈ colunas hdr
    · rw [if_pos ((contains_iff_mem _ _).mpr hmem), if_pos hmem]
    · rw [if_neg (fun hc => hmem ((contains_iff_mem _ _).mp hc)), if_neg hmem]

/-- C2 witness: on a 22-column header the amount source is the index-21
column `X`; on a 2-column header it is the column named `Total`. -/
theorem c2_witness :
    fieldSrcH hdrW2 "total" = some ((colunas hdrW2).getD 21 "") ∧
    fieldSrcH hdrW1 "total" =
      (if "Total" ∈ colunas hdrW1 then some "Total" else none) :=
  ⟨(c2_amount_column_positional hdrW2).1 (by decide),
   (c2_amount_column_positional hdrW1).2 (by decide)⟩

/-- C10: when after mapping there is no recognizable date column, loading
fails with the schema error naming `data_entrada`; when the date column
exists but there is no recognizable amount column, it fails with the
schema error naming `total` (never a silent empty result). -/
theorem c10_schema_error (hdr : List (Option String)) (rows : List Row) :
    (fieldSrcH hdr "data_entrada" = none →
      load_data hdr rows = .error (.keyError "data_entrada")) ∧
    (fieldSrcH hdr "data_entrada" ≠ none → fieldSrcH hdr "total" = none →
      load_data hdr rows = .error (.keyError "total")) := by
  constructor
  · intro h
    simp only [load_data, h]
  · intro h1 h2
    cases hd : fieldSrcH hdr "data_entrada" with
    | none => exact absurd hd h1
    | some dcol => simp only [load_data, hd, h2]

/-- C10 witness: a source with no named columns fails naming the date
field; a source with only the date column fails naming the amount field. -/
theorem c10_witness :
    load_data [] [] = .error (.keyError "data_entrada") ∧
    load_data [some "Dt. entrada"] [] = .error (.keyError "total") :=
  ⟨(c10_schema_error [] []).1 (by decide),
   (c10_schema_error [some "Dt. entrada"] []).2 (by decide) (by decide)⟩

/-- C5: for every record set, `total_registros` is the number of records;
the per-cost-type group totals sum to the total over records with a
non-missing cost type (pandas `groupby` drops missing keys), hence to
`total_valor` whenever every record carries a cost type. -/
theorem c5_summary_totals (rs : List Record) :
    (summaryOf rs).total_registros = rs.length ∧
    ((summaryOf rs).total_por_tipo.map Prod.snd).sum =
      ((rs.filter fun r => (r.tipo_custo).isSome).map Record.total).sum ∧
    ((∀ r ∈ rs, (r.tipo_custo).isSome) →
      ((summaryOf rs).total_por_tipo.map Prod.snd).sum =
        (summaryOf rs).total_valor) := by
  have hkeys_nodup : (groupKeys Record.tipo_custo rs).Nodup :=
    ((stableSort_perm strLeB _).nodup_iff).mpr (uniqueFirst_nodup _)
  have hkeys_mem : ∀ v, v ∈ rs.filterMap Record.tipo_custo →
      v ∈ groupKeys Record.tipo_custo rs := by
    intro v hv
    exact ((stableSort_perm strLeB _).mem_iff).mpr ((mem_uniqueFirst _ _).mpr hv)
  have h2 : ((summaryOf rs).total_por_tipo.map Prod.snd).sum =
      ((rs.filter fun r => (r.tipo_custo).isSome).map Record.total).sum := by
    show ((groupTotals Record.tipo_custo rs).map Prod.snd).sum = _
    rw [groupTotals, List.map_map]
    have hcomp : (Prod.snd ∘ fun k =>
        (k, ((rs.filter fun r => Record.tipo_custo r == some k).map Record.total).sum)) =
        fun k => ((rs.filter fun r =>
          Record.tipo_custo r == some k).map Record.total).sum := rfl
    rw [hcomp, group_filter_sum _ hkeys_nodup]
    have hfc : (rs.filter fun r =>
        match Record.tipo_custo r with
        | some v => decide (v ∈ groupKeys Record.tipo_custo rs)
        | none => false) = rs.filter fun r => (r.tipo_custo).isSome := by
      refine List.filter_congr fun r hr => ?_
      cases htc : Record.tipo_custo r with
      | none => rfl
      | some v =>
          have hv : v ∈ groupKeys Record.tipo_custo rs :=
            hkeys_mem v (List.mem_filterMap.mpr ⟨r, hr, htc⟩)
          simp [htc, hv]
    rw [hfc]
  refine ⟨rfl, h2, fun hall => ?_⟩
  rw [h2]
  have hself : rs.filter (fun r => (r.tipo_custo).isSome) = rs :=
    List.filter_eq_self.mpr (fun r hr => hall r hr)
  rw [hself]
  rfl

/-- C5 witness: the group-total identity on a one-record set whose cost
type is present. -/
theorem c5_witness :
    (∀ r ∈ rsW5, (Record.tipo_custo r).isSome) ∧
    ((summaryOf rsW5).total_por_tipo.map Prod.snd).sum =
      (summaryOf rsW5).total_valor :=
  ⟨by decide, (c5_summary_totals rsW5).2.2 (by decide)⟩

/-- C8 amended: the per-supplier rollup excludes blank/missing suppliers,
has exactly `min 20 (number of distinct non-blank suppliers)` entries
and is sorted by total descending; on equal totals consecutive entries
keep the group order of `groupby`, i.e. supplier name ascending in
code-point order (distinct names), not first-seen order. -/
theorem c8_rollup_sorted_capped (rs : List Record) :
    (∀ f ∈ analise_fornecedores rs, f.fornecedor ≠ "") ∧
    (analise_fornecedores rs).length = min 20 (supplierKeys rs).length ∧
    (analise_fornecedores rs).Pairwise (fun f g =>
      g.total_gasto ≤ f.total_gasto ∧
      (f.total_gasto = g.total_gasto →
        strLeB f.fornecedor g.fornecedor = true ∧ f.fornecedor ≠ g.fornecedor)) := by
  have hmem : ∀ f ∈ analise_fornecedores rs,
      ∃ k ∈ supplierKeys rs, statsFor rs k = f := by
    intro f hf
    have hf2 : f ∈ stableSort statLeB ((supplierKeys rs).map (statsFor rs)) :=
      (List.take_sublist _ _).subset hf
    have hf3 : f ∈ (supplierKeys rs).map (statsFor rs) :=
      ((stableSort_perm _ _).mem_iff).mp hf2
    rcases List.mem_map.mp hf3 with ⟨k, hk, hkf⟩
    exact ⟨k, hk, hkf⟩
  refine ⟨?_, ?_, ?_⟩
  · intro f hf
    rcases hmem f hf with ⟨k, hk, rfl⟩
    have hk2 : k ≠ "" := by simpa using (List.mem_filter.mp hk).2
    simpa [statsFor] using hk2
  · show (List.take 20 _).length = _
    rw [List.length_take, length_stableSort, List.length_map]
  · have hkeys : (stableSort strLeB
        (uniqueFirst (rs.filterMap Record.fornecedor))).Pairwise
        (fun a b => strLeB a b = true ∧ (strLeB b a = true → a ≠ b)) :=
      pairwise_stableSort strLeB (fun a b => a ≠ b) strLeB_trans strLeB_total _
        (uniqueFirst_nodup _)
    have hkeys2 : (supplierKeys rs).Pairwise
        (fun a b => strLeB a b = true ∧ a ≠ b) := by
      refine (List.Pairwise.filter _ hkeys).imp ?_
      intro a b hab
      refine ⟨hab.1, ?_⟩
      by_cases h : strLeB b a = true
      · exact hab.2 h
      · have hf : strLeB b a = false := by
          cases hba : strLeB b a
          · rfl
          · exact absurd hba h
        exact strLeB_false_ne a b hf
    have hstats : ((supplierKeys rs).map (statsFor rs)).Pairwise
        (fun f g => strLeB f.fornecedor g.fornecedor = true ∧
          f.fornecedor ≠ g.fornecedor) := by
      rw [List.pairwise_map]
      refine hkeys2.imp ?_
      intro a b hab
      simpa [statsFor] using hab
    have hsorted := pairwise_stableSort statLeB _ statLeB_trans statLeB_total _ hstats
    refine (List.Pairwise.sublist (List.take_sublist 20 _) hsorted).imp ?_
    intro f g hfg
    have h1 : g.total_gasto ≤ f.total_gasto := by
      have := hfg.1
      simpa [statLeB, Bool.not_eq_true', decide_eq_false_iff_not, not_lt] using this
    refine ⟨h1, fun heq => ?_⟩
    apply hfg.2
    simp [statLeB, heq]

/-- C8 witness: the rollup bound and the non-blank-name fact on a
one-supplier record set. -/
theorem c8_witness :
    (statsFor rsW8 "A").fornecedor ≠ "" ∧
    (analise_fornecedores rsW8).length = min 20 (supplierKeys rsW8).length :=
  ⟨(c8_rollup_sorted_capped rsW8).1 (statsFor rsW8 "A")
      (by rw [show analise_fornecedores rsW8 = [statsFor rsW8 "A"] from rfl]
          exact List.mem_cons_self _ _),
   (c8_rollup_sorted_capped rsW8).2.1⟩

/-- C9 amended: the text filter is a case-insensitive regex search with
missing fields never matching (`na=False`); for filter strings made of
plain characters (no regex metacharacters) this coincides with
case-insensitive substring retention, record by record. -/
theorem c9_filter_regex_semantics (pat : String)
    (hplain : ∀ c ∈ pat.data, isMetaOther c = false ∧ c ≠ '.') :
    seriesContains pat none = some false ∧
    (∀ s, seriesContains pat (some s) =
      some (isInfB (pat.data.map Char.toLower) (s.data.map Char.toLower))) ∧
    (∀ (f : Record → Cell) (rs : List Record),
      filterByField f pat rs = some (rs.filter fun r =>
        match f r with
        | none => false
        | some s => isInfB (pat.data.map Char.toLower) (s.data.map Char.toLower))) := by
  have hsome : ∀ s, seriesContains pat (some s) =
      some (isInfB (pat.data.map Char.toLower) (s.data.map Char.toLower)) := by
    intro s
    show (compile pat.data).map (fun p => research p s.data) = _
    rw [compile_lits pat.data hplain]
    show some (research ((pat.data).map fun c => RElem.once (RAtom.lit c)) s.data) = _
    rw [research_lits]
  refine ⟨rfl, hsome, ?_⟩
  intro f rs
  induction rs with
  | nil => rfl
  | cons r t ih =>
      simp only [filterByField]
      cases hfr : f r with
      | none =>
          rw [show seriesContains pat none = some false from rfl, ih]
          simp [List.filter_cons, hfr]
      | some s =>
          rw [hsome s, ih]
          simp only [List.filter_cons, hfr]

/-- C9 witness: the amended semantics applied to the plain filter string
`b`: missing fields never match, and matching is case-insensitive
substring containment. -/
theorem c9_witness :
    seriesContains "b" none = some false ∧
    seriesContains "b" (some "ABc") =
      some (isInfB ("b".data.map Char.toLower) ("ABc".data.map Char.toLower)) :=
  ⟨(c9_filter_regex_semantics "b" (by decide)).1,
   (c9_filter_regex_semantics "b" (by decide)).2.1 "ABc"⟩
